import Mathlib

/-!
Shallow embedding of the linkapp.authentication credential store
(`src/linkapp/authentication/manager.py`) and its event messenger
(`src/linkapp/authentication/queue.py`).

The Redis database is modelled as an association list from keys to
hashes, a hash being an association list from field names to string
values, mirroring redis-py with `decode_responses=True`; the client
serialises Python booleans with `str`, so `True`/`False` are stored as
those strings.  The salted PBKDF2 hash of passlib is modelled as an
injective tagging function, abstracting the salt: `verify p h` holds
exactly when `h` is the hash of `p`.  Audit events published through
the messenger are collected in lists, in publication order.  Python
exceptions (the manager's own classes, dict `KeyError`, redis-py
`DataError`) are the error case of `Except`.
-/

namespace LinkappAuth

/-- A Redis hash: field name to string value, as redis-py returns it
with decoded responses. -/
abbrev Hash := List (String × String)

/-- The whole Redis database: key to hash. -/
abbrev Store := List (String × Hash)

/-- Lookup of the first binding of a key in an association list
(Python dict lookup / Redis field or key lookup). -/
def assocGet {α : Type} : List (String × α) → String → Option α
  | [], _ => none
  | (k0, v) :: rest, k => if k0 = k then some v else assocGet rest k

/-- Setting a key in an association list: replaces the first binding,
appends when absent (Python dict item assignment / Redis HSET). -/
def assocSet {α : Type} : List (String × α) → String → α → List (String × α)
  | [], k, v => [(k, v)]
  | (k0, v0) :: rest, k, v =>
    if k0 = k then (k0, v) :: rest else (k0, v0) :: assocSet rest k v

/-- Building a dict from a list of pairs, later bindings winning, as
Python `dict(zip(it, it))` does in `_safe_user`. -/
def dictOf {α : Type} (l : List (String × α)) : List (String × α) :=
  l.foldl (fun d kv => assocSet d kv.1 kv.2) []

/-- Removing every binding of a key (Redis DEL). -/
def eraseKey (st : Store) (k : String) : Store :=
  st.filter (fun p => p.1 != k)

/-- `AuthenticationManager.key`: the storage key "user:{}".format(username). -/
def key (username : String) : String := "user:" ++ username

/-- Python `str` of a boolean, which is how the redis client serialises
the `system` flag into the hash. -/
def pyStr (b : Bool) : String := if b then "True" else "False"

/-- `AuthenticationManager.encrypt`, i.e. `pbkdf2_sha256.hash`: the
salted iterated hash is modelled as an injective tag on the password,
which is exactly what `verify` below relies on. -/
def encrypt (password : String) : String := "pbkdf2-sha256$" ++ password

/-- `pbkdf2_sha256.verify password h`: does `h` hash `password`? -/
def verify (password h : String) : Bool := h == encrypt password

/-- Audit events published by `AuthenticationMessenger`; the payloads
are the arguments of the convenience emitters in queue.py. -/
inductive Event where
  | existsEv : String → Bool → Event
  | authorized : String → String → Event
  | failed : String → Option String → Event
  | added : String → Event
  | changed : String → List String → Event
  | viewed : String → Event
  | viewedField : String → String → Event
  | viewedListing : Event
deriving DecidableEq

/-- Errors raised by manager.py, plus the Python-level `KeyError` of a
dict access and the redis-py `DataError` on an empty HMSET mapping. -/
inductive AuthError where
  | userAlreadyExists : AuthError
  | userNotFound : AuthError
  | fieldNotFound : AuthError
  | badUsername : AuthError
  | dataError : AuthError
  | keyError : String → AuthError
deriving DecidableEq

/-- Character class of the username regex `^[\x00-\x7F/]+$`: code
points 0 through 127, plus the (redundant, already included) `/`. -/
def usernameChar (c : Char) : Bool := c.toNat ≤ 127 || c == '/'

/-- `AuthenticationManager.validate_username`: `re.match` of the
anchored pattern `^[\x00-\x7F/]+$` succeeds exactly when the string is
non-empty and every character is in the class. -/
def validate_username (username : String) : Bool :=
  !username.data.isEmpty && username.data.all usernameChar

/-- Redis `EXISTS` on a user key, the store part of
`AuthenticationManager.exists`. -/
def keyExists (st : Store) (username : String) : Bool :=
  (assocGet st (key username)).isSome

/-- `AuthenticationManager.exists`: the existence check together with
its `exists` audit event. -/
def existsUser (st : Store) (username : String) : Bool × List Event :=
  (keyExists st username, [Event.existsEv username (keyExists st username)])

/-- Applying an HMSET mapping to a current hash: each field is set in
order. -/
def hashSet (cur : Hash) (fields : Hash) : Hash :=
  fields.foldl (fun h kv => assocSet h kv.1 kv.2) cur

/-- redis-py `hmset`: raises `DataError` on an empty mapping, otherwise
sets the given fields of the hash at the key, creating the key if it
was absent. -/
def hmset (st : Store) (k : String) (fields : Hash) : Except AuthError Store :=
  match fields with
  | [] => Except.error AuthError.dataError
  | _ => Except.ok (assocSet st k (hashSet ((assocGet st k).getD []) fields))

/-- Keyword arguments of `AuthenticationManager.add` as constrained by
the jsonschema validation of `add_schema`: `username` and `password`
required strings, `encrypted` and `system` optional booleans, further
caller-supplied string fields collected in `extra`. -/
structure AddArgs where
  username : String
  password : String
  encrypted : Option Bool
  system : Option Bool
  extra : Hash
deriving DecidableEq

/-- Keyword arguments of `AuthenticationManager.modify` as constrained
by the jsonschema validation of `schema`, which requires only
`username`. -/
structure ModifyArgs where
  username : String
  password : Option String
  encrypted : Option Bool
  system : Option Bool
  extra : Hash
deriving DecidableEq

/-- `AuthenticationManager.add`.  Returns the result (the username, or
the raised error), the new store, and the published audit events in
order; the `exists` audit event of the inner existence check precedes
the `added` event.  The password is hashed unless `encrypted` is true,
the `encrypted` flag is never stored, and `system` defaults to false. -/
def add (st : Store) (a : AddArgs) : Except AuthError String × Store × List Event :=
  if validate_username a.username then
    if keyExists st a.username then
      (Except.error AuthError.userAlreadyExists, st, [Event.existsEv a.username true])
    else
      let pw := if a.encrypted.getD false then a.password else encrypt a.password
      let fields := ("username", a.username) :: ("password", pw) ::
        ("system", pyStr (a.system.getD false)) :: a.extra
      match hmset st (key a.username) fields with
      | Except.error e => (Except.error e, st, [Event.existsEv a.username false])
      | Except.ok st' =>
        (Except.ok a.username, st',
         [Event.existsEv a.username false, Event.added a.username])
  else (Except.error AuthError.badUsername, st, [])

/-- The kwargs dict of `modify` after the password rewrite and the
deletions of `encrypted` and `username`: what is handed to HMSET and,
as names, to the `changed` event. -/
def modifyFields (pwOpt : Option String) (m : ModifyArgs) : Hash :=
  (match pwOpt with | none => [] | some v => [("password", v)]) ++
  (match m.system with | none => [] | some b => [("system", pyStr b)]) ++ m.extra

/-- `AuthenticationManager.modify`.  Follows the source exactly: when
`encrypted` is not true the code evaluates `kwargs['password']` before
checking that it is there, so a call without a password raises the dict
`KeyError`; otherwise the remaining fields are written with HMSET and a
`changed` event lists their names. -/
def modify (st : Store) (m : ModifyArgs) : Except AuthError Bool × Store × List Event :=
  let pwr : Except AuthError (Option String) :=
    if m.encrypted.getD false then Except.ok m.password
    else
      match m.password with
      | none => Except.error (AuthError.keyError "password")
      | some p => Except.ok (some (encrypt p))
  match pwr with
  | Except.error e => (Except.error e, st, [])
  | Except.ok pwOpt =>
    match hmset st (key m.username) (modifyFields pwOpt m) with
    | Except.error e => (Except.error e, st, [])
    | Except.ok st' =>
      (Except.ok true, st', [Event.changed m.username ((modifyFields pwOpt m).map Prod.fst)])

/-- `AuthenticationManager.delete`: Redis DEL; returns the count of
removed keys and the new store.  No audit event is emitted on this
path. -/
def delete (st : Store) (username : String) : Nat × Store :=
  (if keyExists st username then 1 else 0, eraseKey st (key username))

/-- `AuthenticationManager._safe_user`: zips the raw HGETALL reply into
a dict and unconditionally overwrites the password entry with `None`. -/
def safe_user (response : Hash) : List (String × Option String) :=
  assocSet (dictOf (response.map (fun kv => (kv.1, some kv.2)))) "password" none

/-- `AuthenticationManager.get` with `safe=False`: the raw HGETALL
reply (an absent key yields the empty hash) plus the `viewed` audit
event. -/
def get_raw (st : Store) (username : String) : Hash × List Event :=
  ((assocGet st (key username)).getD [], [Event.viewed username])

/-- `AuthenticationManager.get` with the default `safe=True`: the same
single fetch with the `_safe_user` response callback applied inside the
pipeline. -/
def get (st : Store) (username : String) : List (String × Option String) × List Event :=
  (safe_user ((assocGet st (key username)).getD []), [Event.viewed username])

/-- `AuthenticationManager.list_users` with the default `safe=True`:
every key matching the glob `user:*` (i.e. with that prefix) is fetched
with the safe callback; one `viewed-listing` event is emitted for the
whole call. -/
def list_users (st : Store) : List (List (String × Option String)) × List Event :=
  (((st.map Prod.fst).filter (fun k => k.startsWith "user:")).map
    (fun k => safe_user ((assocGet st k).getD [])),
   [Event.viewedListing])

/-- `AuthenticationManager.get_one_field`: refuses the password field
before touching the store, otherwise returns the raw HMGET reply, a
one-element list holding the field value or `None`. -/
def get_one_field (st : Store) (username field : String) :
    Except AuthError (List (Option String)) × List Event :=
  if field = "password" then (Except.error AuthError.fieldNotFound, [])
  else
    (Except.ok [assocGet ((assocGet st (key username)).getD []) field],
     [Event.viewedField username field])

/-- The tail of `AuthenticationManager.authenticate` after the system
gate: emits `authorized` with the stored system flag, then verifies the
supplied password against the stored hash.  A record without a `system`
or `password` field makes the corresponding dict access raise
`KeyError`; the `authorized` event is already sent when the password
access happens. -/
def authFinish (user : Hash) (username password : String) (ev : List Event) :
    Except AuthError Bool × List Event :=
  match assocGet user "system" with
  | none => (Except.error (AuthError.keyError "system"), ev)
  | some sv =>
    match assocGet user "password" with
    | none => (Except.error (AuthError.keyError "password"), ev ++ [Event.authorized username sv])
    | some h => (Except.ok (verify password h), ev ++ [Event.authorized username sv])

/-- `AuthenticationManager.authenticate`: unsafe fetch first (whose
`viewed` event leads), an empty reply is falsy and yields a `failed`
event with a null flag; with `system=True` the stored flag is compared
against the string "True" before any password handling. -/
def authenticate (st : Store) (username password : String) (system : Bool) :
    Except AuthError Bool × List Event :=
  match (get_raw st username).1 with
  | [] => (Except.ok false, (get_raw st username).2 ++ [Event.failed username none])
  | f :: rest =>
    let user := f :: rest
    let ev := (get_raw st username).2
    if system then
      match assocGet user "system" with
      | none => (Except.error (AuthError.keyError "system"), ev)
      | some sv =>
        if sv = "True" then authFinish user username password ev
        else (Except.ok false, ev ++ [Event.failed username (some sv)])
    else authFinish user username password ev

/-- Connection state of `AuthenticationMessenger`; `retries` starts at
1 in `__init__`.  `retry_sleep_start` is modelled as an exact
rational. -/
structure MessengerState where
  retries : Nat
  max_retries : Nat
  retry_sleep_start : ℚ
deriving DecidableEq

/-- `AuthenticationMessenger.wait`: retry_sleep_start * retries ** 2. -/
def wait (s : MessengerState) : ℚ :=
  s.retry_sleep_start * ((s.retries : ℚ)) ^ 2

/-- Recursion core of `AuthenticationMessenger.connect`.  `attempts i`
says whether the i-th pika connection attempt succeeds; `r` is the
current retry counter and `fuel` stands for `max_retries - r`, so
`fuel = 0` is exactly the guard `retries >= max_retries` (the counter
grows by one per recursive call, the code's only recursion).  Returns
whether a connection was made and the back-off sleeps performed, in
order; a sleep of `retry_sleep_start * r ** 2` happens on each failed
attempt, before the recursive call. -/
def connectAux (attempts : Nat → Bool) (q : ℚ) : Nat → Nat → Nat → Bool × List ℚ
  | 0, _, _ => (false, [])
  | fuel + 1, i, r =>
    if attempts i then (true, [])
    else
      let rest := connectAux attempts q fuel (i + 1) (r + 1)
      (rest.1, (q * ((r : ℚ)) ^ 2) :: rest.2)

/-- `AuthenticationMessenger.connect` from a given state: raises
`TooManyRetries` (the error case) once `retries >= max_retries`,
otherwise retries with the quadratic back-off and resets the counter to
0 on success. -/
def connect (attempts : Nat → Bool) (i : Nat) (s : MessengerState) :
    Except Unit MessengerState × List ℚ :=
  match connectAux attempts s.retry_sleep_start (s.max_retries - s.retries) i s.retries with
  | (false, ws) => (Except.error (), ws)
  | (true, ws) => (Except.ok ⟨0, s.max_retries, s.retry_sleep_start⟩, ws)

/-- One call against the credential store; reads carry their arguments
but never write, as in the source, where only `add`, `modify` and
`delete` issue writing Redis commands. -/
inductive Op where
  | addOp : AddArgs → Op
  | modifyOp : ModifyArgs → Op
  | deleteOp : String → Op
  | authOp : String → String → Bool → Op
  | getOp : String → Bool → Op
  | listOp : Op
  | existsOp : String → Op
  | fieldOp : String → String → Op
deriving DecidableEq

/-- Store effect of one operation. -/
def applyOp (st : Store) : Op → Store
  | Op.addOp a => (add st a).2.1
  | Op.modifyOp m => (modify st m).2.1
  | Op.deleteOp x => (delete st x).2
  | Op.authOp _ _ _ => st
  | Op.getOp _ _ => st
  | Op.listOp => st
  | Op.existsOp _ => st
  | Op.fieldOp _ _ => st

/-- The operation is a successful `add` or a successful `modify` for
this username — the two writes that can put a record in place. -/
def createsRecord (st : Store) (op : Op) (u : String) : Prop :=
  match op with
  | Op.addOp a => a.username = u ∧ ∃ x, (add st a).1 = Except.ok x
  | Op.modifyOp m => m.username = u ∧ (modify st m).1 = Except.ok true
  | _ => False

theorem assocGet_assocSet_self {α : Type} (l : List (String × α)) (k : String) (v : α) :
    assocGet (assocSet l k v) k = some v := by
  induction l with
  | nil => simp [assocSet, assocGet]
  | cons p rest ih =>
    obtain ⟨k0, v0⟩ := p
    by_cases h : k0 = k
    · simp [assocSet, assocGet, h]
    · simp [assocSet, assocGet, h, ih]

theorem assocGet_assocSet_ne {α : Type} (l : List (String × α)) (k k' : String) (v : α)
    (h : k' ≠ k) : assocGet (assocSet l k v) k' = assocGet l k' := by
  have hk : k ≠ k' := Ne.symm h
  induction l with
  | nil => simp [assocSet, assocGet, hk]
  | cons p rest ih =>
    obtain ⟨k0, v0⟩ := p
    by_cases h0 : k0 = k
    · subst h0
      simp [assocSet, assocGet, hk]
    · simp [assocSet, assocGet, h0, ih]

theorem assocGet_eraseKey_self (st : Store) (k : String) :
    assocGet (eraseKey st k) k = none := by
  induction st with
  | nil => rfl
  | cons p rest ih =>
    obtain ⟨k0, v0⟩ := p
    by_cases h0 : k0 = k
    · subst h0
      simpa [eraseKey, List.filter_cons] using ih
    · simp [eraseKey, List.filter_cons, bne_iff_ne, h0, assocGet] at ih ⊢
      exact ih

theorem assocGet_eraseKey_ne (st : Store) (k k' : String) (h : k' ≠ k) :
    assocGet (eraseKey st k) k' = assocGet st k' := by
  induction st with
  | nil => rfl
  | cons p rest ih =>
    obtain ⟨k0, v0⟩ := p
    by_cases h0 : k0 = k
    · subst h0
      have hk : k0 ≠ k' := Ne.symm h
      simp [eraseKey, List.filter_cons, assocGet, hk] at ih ⊢
      exact ih
    · simp [eraseKey, List.filter_cons, bne_iff_ne, h0, assocGet] at ih ⊢
      rw [ih]

theorem key_inj (a b : String) (h : key a = key b) : a = b := by
  have hd : ("user:" ++ a).data = ("user:" ++ b).data := congrArg String.data h
  simp only [String.data_append] at hd
  have := List.append_cancel_left hd
  exact String.ext this

theorem keyExists_assocSet (st : Store) (w u : String) (h : Hash) :
    keyExists (assocSet st (key w) h) u = true ↔ (u = w ∨ keyExists st u = true) := by
  by_cases hu : u = w
  · subst hu
    simp [keyExists, assocGet_assocSet_self]
  · have hk : key u ≠ key w := fun he => hu (key_inj u w he)
    simp [keyExists, assocGet_assocSet_ne st (key w) (key u) h hk, hu]

theorem encrypt_inj (p q : String) (h : encrypt p = encrypt q) : p = q := by
  have hd : ("pbkdf2-sha256$" ++ p).data = ("pbkdf2-sha256$" ++ q).data := congrArg String.data h
  simp only [String.data_append] at hd
  exact String.ext (List.append_cancel_left hd)

theorem hmset_ok (st : Store) (k : String) (f : Hash) (st' : Store)
    (h : hmset st k f = Except.ok st') :
    st' = assocSet st k (hashSet ((assocGet st k).getD []) f) := by
  cases f with
  | nil => simp [hmset] at h
  | cons p rest =>
    simp only [hmset, Except.ok.injEq] at h
    exact h.symm

/-- The field names of an association list. -/
def keysOf {α : Type} (l : List (String × α)) : List String := l.map Prod.fst

@[simp] theorem keysOf_nil {α : Type} : keysOf ([] : List (String × α)) = [] := rfl

@[simp] theorem keysOf_cons {α : Type} (k : String) (v : α) (l : List (String × α)) :
    keysOf ((k, v) :: l) = k :: keysOf l := rfl

/-- The keys of an association list are pairwise distinct. -/
def keysNodup {α : Type} (l : List (String × α)) : Prop := (keysOf l).Nodup

theorem mem_keysOf_of_mem {α : Type} {l : List (String × α)} {k : String} {v : α}
    (h : (k, v) ∈ l) : k ∈ keysOf l := by
  induction l with
  | nil => cases h
  | cons p rest ih =>
    obtain ⟨k0, v0⟩ := p
    rcases List.mem_cons.mp h with h | h
    · obtain ⟨hk, _⟩ := Prod.mk.inj h
      simp [hk]
    · simp [ih h]

theorem keysOf_assocSet_cases {α : Type} (l : List (String × α)) (k : String) (v : α) :
    keysOf (assocSet l k v) = keysOf l ∨
      (k ∉ keysOf l ∧ keysOf (assocSet l k v) = keysOf l ++ [k]) := by
  induction l with
  | nil => right; simp [assocSet]
  | cons p rest ih =>
    obtain ⟨k0, v0⟩ := p
    by_cases h0 : k0 = k
    · left; simp [assocSet, h0]
    · rcases ih with ih | ⟨hk, ih⟩
      · left; simp [assocSet, h0, ih]
      · right
        constructor
        · have hne : k ≠ k0 := fun he => h0 he.symm
          simp [hk, hne]
        · simp [assocSet, h0, ih]

theorem keysNodup_assocSet {α : Type} (l : List (String × α)) (k : String) (v : α)
    (h : keysNodup l) : keysNodup (assocSet l k v) := by
  rcases keysOf_assocSet_cases l k v with he | ⟨hk, he⟩
  · unfold keysNodup
    rw [he]
    exact h
  · unfold keysNodup
    rw [he, List.nodup_append]
    refine ⟨h, List.nodup_singleton k, ?_⟩
    intro a ha hb
    rw [List.mem_singleton.mp hb] at ha
    exact hk ha

theorem keysNodup_foldl {α : Type} (l : List (String × α)) :
    ∀ acc : List (String × α), keysNodup acc →
      keysNodup (l.foldl (fun d kv => assocSet d kv.1 kv.2) acc) := by
  induction l with
  | nil => intro acc h; simpa using h
  | cons p rest ih =>
    intro acc h
    simpa using ih (assocSet acc p.1 p.2) (keysNodup_assocSet acc p.1 p.2 h)

theorem keysNodup_dictOf {α : Type} (l : List (String × α)) : keysNodup (dictOf l) :=
  keysNodup_foldl l [] (by simp [keysNodup])

theorem assocGet_of_mem_nodup {α : Type} (l : List (String × α)) (k : String) (v : α)
    (hn : keysNodup l) (hm : (k, v) ∈ l) : assocGet l k = some v := by
  induction l with
  | nil => cases hm
  | cons p rest ih =>
    obtain ⟨k0, v0⟩ := p
    simp only [keysNodup, keysOf_cons, List.nodup_cons] at hn
    rcases List.mem_cons.mp hm with h | h
    · obtain ⟨hk, hv⟩ := Prod.mk.inj h
      simp [assocGet, hk.symm, hv.symm]
    · have hk0 : k0 ≠ k := by
        intro he
        apply hn.1
        subst he
        exact mem_keysOf_of_mem h
      simp only [assocGet, if_neg hk0]
      exact ih hn.2 h

theorem safe_user_password_lookup (r : Hash) :
    assocGet (safe_user r) "password" = some none :=
  assocGet_assocSet_self _ _ _

theorem mem_safe_user_password (r : Hash) (v : Option String)
    (h : ("password", v) ∈ safe_user r) : v = none := by
  have hn : keysNodup (safe_user r) :=
    keysNodup_assocSet _ _ _ (keysNodup_dictOf _)
  have hv := assocGet_of_mem_nodup _ _ _ hn h
  rw [safe_user_password_lookup] at hv
  exact (Option.some.inj hv).symm

theorem connectAux_allFail (attempts : Nat → Bool) (q : ℚ)
    (hfail : ∀ j, attempts j = false) :
    ∀ (fuel i r : Nat),
      connectAux attempts q fuel i r =
        (false, (List.range fuel).map (fun n => q * (((r + n : Nat) : ℚ)) ^ 2)) := by
  intro fuel
  induction fuel with
  | zero => intro i r; simp [connectAux]
  | succ fuel ih =>
    intro i r
    rw [connectAux, hfail i]
    simp only [Bool.false_eq_true, if_false, ih (i + 1) (r + 1)]
    rw [List.range_succ_eq_map, List.map_cons, List.map_map]
    refine congrArg (Prod.mk false) (congrArg₂ List.cons (by simp) ?_)
    apply List.map_congr_left
    intro n _
    have hr : r + 1 + n = r + (n + 1) := by omega
    simp [Function.comp, hr]

theorem modify_shape (st : Store) (m : ModifyArgs) :
    ((modify st m).2.1 = st ∧ ∀ b, (modify st m).1 ≠ Except.ok b) ∨
      (∃ h, (modify st m).2.1 = assocSet st (key m.username) h ∧
        (modify st m).1 = Except.ok true) := by
  unfold modify
  by_cases henc : m.encrypted.getD false
  · simp only [henc, if_true]
    cases hh : hmset st (key m.username) (modifyFields m.password m) with
    | error e => left; simp [hh]
    | ok st' =>
      right
      refine ⟨hashSet ((assocGet st (key m.username)).getD []) (modifyFields m.password m),
        ?_, ?_⟩
      · simp only [hh]
        exact hmset_ok _ _ _ _ hh
      · simp [hh]
  · simp only [henc, Bool.false_eq_true, if_false]
    cases hpw : m.password with
    | none => left; simp [hpw]
    | some p =>
      simp only [hpw]
      cases hh : hmset st (key m.username) (modifyFields (some (encrypt p)) m) with
      | error e => left; simp [hh]
      | ok st' =>
        right
        refine ⟨hashSet ((assocGet st (key m.username)).getD [])
          (modifyFields (some (encrypt p)) m), ?_, ?_⟩
        · exact hmset_ok _ _ _ _ hh
        · simp [hh]

/-- C10: for a username with no record in the store, the safe `get`
still returns a non-empty record consisting of exactly the entry
mapping `password` to null, because `_safe_user` unconditionally
inserts the password key into the zipped (here empty) reply. -/
theorem C10_get_missing_user (st : Store) (u : String)
    (h : assocGet st (key u) = none) :
    (get st u).1 = [("password", none)] := by
  simp [get, h, safe_user, dictOf, assocSet]

/-- Witness for C10: the empty store and the username "ghost". -/
theorem C10_get_missing_user_witness :
    assocGet ([] : Store) (key "ghost") = none ∧
    (get ([] : Store) "ghost").1 = [("password", none)] :=
  ⟨rfl, C10_get_missing_user [] "ghost" rfl⟩

/-- C9: `get_one_field` always fails with `FieldNotFound` for the
password field, before touching the store, for existing and
non-existing users alike; but for an absent field it returns the raw
HMGET reply `[None]` — a one-element list containing null — rather
than the bare null the claim describes and the wsgi caller's
`result is None` check expects. -/
theorem C9_get_one_field_password_and_absent :
    (∀ st u, get_one_field st u "password" = (Except.error AuthError.fieldNotFound, [])) ∧
    (get_one_field [] "ghost" "email").1 = Except.ok [none] :=
  ⟨fun _ _ => rfl, rfl⟩

/-- C8: the claim says `modify` needs only `username` and succeeds for
any subset of the other fields, but the source evaluates
`kwargs['password']` whenever `encrypted` is not true, so updating only
the `system` field raises the dict `KeyError`; the store is unchanged
and no `changed` event is emitted. -/
theorem C8_modify_keyerror_on_missing_password :
    modify [("user:alice", [("username", "alice"), ("password", "h"), ("system", "False")])]
      ⟨"alice", none, none, some true, []⟩ =
      (Except.error (AuthError.keyError "password"),
       [("user:alice", [("username", "alice"), ("password", "h"), ("system", "False")])],
       []) := rfl

/-- C4 counterexample: the regex character class `[\x00-\x7F/]`
contains the space character, so the username "bad user" is accepted by
`validate_username`, while the claim says it is rejected. -/
theorem C4_counterexample_space_accepted : validate_username "bad user" = true := by decide

/-- C4 amended: username validation accepts exactly the non-empty
strings of 7-bit ASCII characters (the `/` in the class is redundant
and the space character is accepted): "alice", "svc/worker-1" and
"bad user" pass, "naïve" fails, and `add` raises `BadUsername` on every
rejected username, leaving the store unchanged and emitting nothing. -/
theorem C4_username_validation (s : String) (st : Store) (a : AddArgs) :
    (validate_username s = true ↔ (s.data ≠ [] ∧ ∀ c ∈ s.data, c.toNat ≤ 127)) ∧
    validate_username "alice" = true ∧
    validate_username "svc/worker-1" = true ∧
    validate_username "bad user" = true ∧
    validate_username "naïve" = false ∧
    (validate_username a.username = false →
      add st a = (Except.error AuthError.badUsername, st, [])) := by
  refine ⟨?_, by decide, by decide, by decide, by decide, ?_⟩
  · simp only [validate_username, usernameChar, Bool.and_eq_true, Bool.not_eq_true',
      List.all_eq_true, Bool.or_eq_true, decide_eq_true_eq, beq_iff_eq,
      List.isEmpty_eq_false_iff_exists_mem]
    constructor
    · rintro ⟨h1, h2⟩
      refine ⟨?_, fun c hc => ?_⟩
      · obtain ⟨x, hx⟩ := h1
        intro he
        rw [he] at hx
        cases hx
      · rcases h2 c hc with h | h
        · exact h
        · rw [h]
          decide
    · rintro ⟨h1, h2⟩
      refine ⟨?_, fun c hc => Or.inl (h2 c hc)⟩
      cases hd : s.data with
      | nil => exact absurd hd h1
      | cons c t => exact ⟨c, by simp [hd]⟩
  · intro hbad
    simp [add, hbad]

/-- Witness for C4: the rejected username "naïve" makes `add` raise
`BadUsername` on the empty store. -/
theorem C4_username_validation_witness :
    validate_username "naïve" = false ∧
    add ([] : Store) ⟨"naïve", "pw", none, none, []⟩ =
      (Except.error AuthError.badUsername, [], []) := by
  have h := C4_username_validation "naïve" [] ⟨"naïve", "pw", none, none, []⟩
  exact ⟨h.2.2.2.2.1, h.2.2.2.2.2 h.2.2.2.2.1⟩

/-- C1: every externally-returned view redacts the password as part of
the fetch itself: the safe `get` maps the password field to null (both
as a dict lookup and for every raw entry of the returned dict), every
record returned by `list_users` does the same, `get_one_field` refuses
the password field, and a `get_one_field` that returns a value can only
have been for a non-password field. -/
theorem C1_safe_views_redact_password (st : Store) (u : String) :
    assocGet (get st u).1 "password" = some none ∧
    (∀ v, ("password", v) ∈ (get st u).1 → v = none) ∧
    (∀ r, r ∈ (list_users st).1 →
      assocGet r "password" = some none ∧ ∀ v, ("password", v) ∈ r → v = none) ∧
    (get_one_field st u "password").1 = Except.error AuthError.fieldNotFound ∧
    (∀ f xs, (get_one_field st u f).1 = Except.ok xs → f ≠ "password") := by
  refine ⟨safe_user_password_lookup _, fun v hv => mem_safe_user_password _ v hv, ?_, rfl, ?_⟩
  · intro r hr
    simp only [list_users, List.mem_map] at hr
    obtain ⟨k, _, rfl⟩ := hr
    exact ⟨safe_user_password_lookup _, fun v hv => mem_safe_user_password _ v hv⟩
  · intro f xs h hf
    subst hf
    simp [get_one_field] at h

/-- Witness for C1: a store holding one record for "alice" with a
stored password value; membership and field-fetch hypotheses are
discharged by evaluation. -/
theorem C1_safe_views_redact_password_witness :
    (("password", (none : Option String)) ∈
        (get [("user:alice", [("password", "hash")])] "alice").1) ∧
    (none : Option String) = none ∧
    ((get_one_field [("user:alice", [("password", "hash")])] "alice" "email").1 =
      Except.ok [none]) ∧
    "email" ≠ "password" := by
  have h := C1_safe_views_redact_password [("user:alice", [("password", "hash")])] "alice"
  exact ⟨by decide, h.2.1 none (by decide), rfl,
    h.2.2.2.2 "email" [none] rfl⟩

/-- C3: with `system=True` against an existing record whose stored
system flag is a string other than "True", `authenticate` returns false
and publishes only the `viewed` event of the fetch and the `failed`
event carrying the stored flag.  The supplied password `p` is
universally quantified and absent from the conclusion: the outcome and
events are identical for every password, correct or not, so the
system-scope gate short-circuits before any password comparison. -/
theorem C3_system_gate_short_circuits (st : Store) (u p : String) (rec : Hash) (sv : String)
    (hrec : assocGet st (key u) = some rec) (hne : rec ≠ [])
    (hsv : assocGet rec "system" = some sv) (hsvne : sv ≠ "True") :
    authenticate st u p true = (Except.ok false, [Event.viewed u, Event.failed u (some sv)]) := by
  cases rec with
  | nil => exact absurd rfl hne
  | cons f rest =>
    simp [authenticate, get_raw, hrec, hsv, hsvne]

/-- Witness for C3: a non-system account "svc1" whose stored password
hash matches the supplied password "p@ss"; the system-scoped
authentication still fails with the `failed` event. -/
theorem C3_system_gate_short_circuits_witness :
    assocGet [("user:svc1",
        [("username", "svc1"), ("password", encrypt "p@ss"), ("system", "False")])]
      (key "svc1") =
      some [("username", "svc1"), ("password", encrypt "p@ss"), ("system", "False")] ∧
    ([("username", "svc1"), ("password", encrypt "p@ss"), ("system", "False")] : Hash) ≠ [] ∧
    assocGet [("username", "svc1"), ("password", encrypt "p@ss"), ("system", "False")]
      "system" = some "False" ∧
    ("False" : String) ≠ "True" ∧
    authenticate [("user:svc1",
        [("username", "svc1"), ("password", encrypt "p@ss"), ("system", "False")])]
      "svc1" "p@ss" true =
      (Except.ok false, [Event.viewed "svc1", Event.failed "svc1" (some "False")]) :=
  ⟨rfl, by decide, rfl, by decide,
    C3_system_gate_short_circuits _ "svc1" "p@ss" _ "False" rfl (by decide) rfl (by decide)⟩

/-- C6 counterexample: a record can sit under a non-ASCII username (for
instance created through `modify`, which validates nothing), and then
`add` for that same username fails with `BadUsername` — raised before
the duplicate check — not with `UserAlreadyExists` as the claim states
for every existing key. -/
theorem C6_counterexample_bad_username_first :
    keyExists [("user:naïve", [("system", "True")])] "naïve" = true ∧
    (add [("user:naïve", [("system", "True")])] ⟨"naïve", "pw", none, none, []⟩).1 =
      Except.error AuthError.badUsername ∧
    AuthError.badUsername ≠ AuthError.userAlreadyExists :=
  ⟨by decide, rfl, by decide⟩

/-- C6 amended: for every username that passes validation and whose key
already exists, `add` fails with `UserAlreadyExists`, leaves the store
unchanged, and emits only the existence-check audit event — in
particular no `added` event. -/
theorem C6_duplicate_add_rejected (st : Store) (a : AddArgs)
    (hv : validate_username a.username = true)
    (hex : keyExists st a.username = true) :
    add st a = (Except.error AuthError.userAlreadyExists, st, [Event.existsEv a.username true]) ∧
    Event.added a.username ∉ [Event.existsEv a.username true] := by
  constructor
  · simp [add, hv, hex]
  · simp

/-- Witness for C6: adding "bob" over an existing "bob" record. -/
theorem C6_duplicate_add_rejected_witness :
    validate_username "bob" = true ∧
    keyExists [("user:bob", [("username", "bob"), ("password", "h"), ("system", "False")])]
      "bob" = true ∧
    add [("user:bob", [("username", "bob"), ("password", "h"), ("system", "False")])]
      ⟨"bob", "x", none, none, []⟩ =
      (Except.error AuthError.userAlreadyExists,
       [("user:bob", [("username", "bob"), ("password", "h"), ("system", "False")])],
       [Event.existsEv "bob" true]) :=
  ⟨by decide, by decide,
    (C6_duplicate_add_rejected _ ⟨"bob", "x", none, none, []⟩ (by decide) (by decide)).1⟩

/-- C2: after a successful default `add` of a fresh, valid username,
`authenticate` with the same password returns true and with any
different password returns false. -/
theorem C2_add_authenticate_roundtrip (st : Store) (u p w : String)
    (hv : validate_username u = true)
    (hfresh : assocGet st (key u) = none) (hw : w ≠ p) :
    (add st ⟨u, p, none, none, []⟩).1 = Except.ok u ∧
    (authenticate (add st ⟨u, p, none, none, []⟩).2.1 u p false).1 = Except.ok true ∧
    (authenticate (add st ⟨u, p, none, none, []⟩).2.1 u w false).1 = Except.ok false := by
  have hkx : keyExists st u = false := by simp [keyExists, hfresh]
  have hadd : add st ⟨u, p, none, none, []⟩ =
      (Except.ok u,
       assocSet st (key u)
         [("username", u), ("password", encrypt p), ("system", "False")],
       [Event.existsEv u false, Event.added u]) := by
    simp [add, hv, hkx, hmset, hashSet, hfresh, assocSet, pyStr]
  rw [hadd]
  have hget : assocGet
      (assocSet st (key u) [("username", u), ("password", encrypt p), ("system", "False")])
      (key u) = some [("username", u), ("password", encrypt p), ("system", "False")] :=
    assocGet_assocSet_self _ _ _
  refine ⟨rfl, ?_, ?_⟩
  · simp [authenticate, get_raw, hget, authFinish, assocGet, verify]
  · simp only [authenticate, get_raw, hget, Option.getD_some, authFinish]
    have hne : encrypt p ≠ encrypt w := fun h => hw (encrypt_inj p w h).symm
    simp [assocGet, verify, hne]

/-- Witness for C2: adding "alice" with password "pw" to the empty
store; "x" is a different password. -/
theorem C2_add_authenticate_roundtrip_witness :
    validate_username "alice" = true ∧
    assocGet ([] : Store) (key "alice") = none ∧
    ("x" : String) ≠ "pw" ∧
    (authenticate (add ([] : Store) ⟨"alice", "pw", none, none, []⟩).2.1
      "alice" "pw" false).1 = Except.ok true ∧
    (authenticate (add ([] : Store) ⟨"alice", "pw", none, none, []⟩).2.1
      "alice" "x" false).1 = Except.ok false := by
  have h := C2_add_authenticate_roundtrip [] "alice" "pw" "x" (by decide) rfl (by decide)
  exact ⟨by decide, rfl, by decide, h.2.1, h.2.2⟩

/-- C5: with the retry counter starting at 1 as `__init__` sets it, a
run of failing connection attempts sleeps retry_sleep_start * n² before
the n-th retry (n = 1, 2, ..., max_retries - 1) and then raises
`TooManyRetries`; and from any state whose counter has reached
max_retries, `connect` raises immediately with no sleep at all. -/
theorem C5_connect_backoff (q : ℚ) (m i : Nat) (attempts : Nat → Bool)
    (hfail : ∀ j, attempts j = false) :
    (connect attempts i ⟨1, m, q⟩).2 =
      (List.range (m - 1)).map (fun n => q * (((1 + n : Nat) : ℚ)) ^ 2) ∧
    (connect attempts i ⟨1, m, q⟩).1 = Except.error () ∧
    (∀ r, m ≤ r → connect attempts i ⟨r, m, q⟩ = (Except.error (), [])) := by
  have h1 := connectAux_allFail attempts q hfail (m - 1) i 1
  refine ⟨?_, ?_, ?_⟩
  · simp [connect, h1]
  · simp [connect, h1]
  · intro r hr
    have hz : m - r = 0 := by omega
    simp [connect, hz, connectAux]

/-- Witness for C5: retry_sleep_start = 0.1 and max_retries = 5 give
the sleeps 0.1, 0.4, 0.9, 1.6 and then the fatal error; a state with
the counter at the bound fails with no sleep. -/
theorem C5_connect_backoff_witness :
    (connect (fun _ => false) 0 ⟨1, 5, (1 : ℚ)/10⟩).2 =
      [1/10, 4/10, 9/10, 16/10] ∧
    (connect (fun _ => false) 0 ⟨1, 5, (1 : ℚ)/10⟩).1 = Except.error () ∧
    connect (fun _ => false) 0 ⟨5, 5, (1 : ℚ)/10⟩ = (Except.error (), []) := by
  have h := C5_connect_backoff ((1 : ℚ)/10) 5 0 (fun _ => false) (fun _ => rfl)
  refine ⟨?_, h.2.1, h.2.2 5 (le_refl 5)⟩
  rw [h.1]
  rw [show List.range (5 - 1) = [0, 1, 2, 3] from rfl]
  norm_num

/-- C7 counterexample: starting from the empty store, where no `add`
ever succeeded, a single `modify` call (which never checks existence)
creates the record for "ghost" — an operation other than `add` creates
a record, refuting the claimed invariant. -/
theorem C7_counterexample_modify_creates :
    keyExists (applyOp [] (Op.modifyOp ⟨"ghost", some "pw", none, none, []⟩)) "ghost" = true := by
  decide

/-- C7 amended: after any single operation, a record exists if and only
if the operation was a successful `add` or a successful `modify` for
that username, or the record already existed and the operation was not
a `delete` of it — so `add` and `modify` are the only creators and
`delete` the only remover, while every read leaves the store as is. -/
theorem C7_record_existence (st : Store) (op : Op) (u : String) :
    keyExists (applyOp st op) u = true ↔
      (createsRecord st op u ∨ (keyExists st u = true ∧ op ≠ Op.deleteOp u)) := by
  cases op with
  | addOp a =>
    have hne : Op.addOp a ≠ Op.deleteOp u := by simp
    by_cases hv : validate_username a.username
    · by_cases hex : keyExists st a.username
      · simp [applyOp, createsRecord, add, hv, hex, hne]
      · have h1 : (add st a).2.1 = assocSet st (key a.username)
            (hashSet ((assocGet st (key a.username)).getD [])
              (("username", a.username) ::
                ("password", if a.encrypted.getD false then a.password
                  else encrypt a.password) ::
                ("system", pyStr (a.system.getD false)) :: a.extra)) := by
          simp [add, hv, hex, hmset]
        have h2 : (add st a).1 = Except.ok a.username := by
          simp [add, hv, hex, hmset]
        simp only [applyOp, h1, createsRecord]
        rw [keyExists_assocSet]
        constructor
        · rintro (h' | h')
          · exact Or.inl ⟨h'.symm, ⟨a.username, h2⟩⟩
          · exact Or.inr ⟨h', hne⟩
        · rintro (⟨h', _⟩ | ⟨h', _⟩)
          · exact Or.inl h'.symm
          · exact Or.inr h'
    · simp [applyOp, createsRecord, add, hv, hne]
  | modifyOp m =>
    have hne : Op.modifyOp m ≠ Op.deleteOp u := by simp
    rcases modify_shape st m with ⟨hst, hf⟩ | ⟨h, hst, hok⟩
    · have hnok : ¬((modify st m).1 = Except.ok true) := hf true
      simp [applyOp, hst, createsRecord, hnok, hne]
    · simp only [applyOp, hst, createsRecord]
      rw [keyExists_assocSet]
      constructor
      · rintro (h' | h')
        · exact Or.inl ⟨h'.symm, hok⟩
        · exact Or.inr ⟨h', hne⟩
      · rintro (⟨h', _⟩ | ⟨h', _⟩)
        · exact Or.inl h'.symm
        · exact Or.inr h'
  | deleteOp x =>
    by_cases hx : x = u
    · subst hx
      have hz : keyExists (eraseKey st (key x)) x = false := by
        simp [keyExists, assocGet_eraseKey_self]
      simp only [applyOp, delete, createsRecord]
      simp [hz]
    · have hk : key u ≠ key x := fun he => hx (key_inj u x he).symm
      have hev : keyExists (eraseKey st (key x)) u = keyExists st u := by
        simp [keyExists, assocGet_eraseKey_ne st (key x) (key u) hk]
      have hne2 : Op.deleteOp x ≠ Op.deleteOp u := by simp [hx]
      simp only [applyOp, delete, createsRecord, hev]
      simp [hne2]
  | authOp x p0 sy => simp [applyOp, createsRecord]
  | getOp x sf => simp [applyOp, createsRecord]
  | listOp => simp [applyOp, createsRecord]
  | existsOp x => simp [applyOp, createsRecord]
  | fieldOp x f => simp [applyOp, createsRecord]

end LinkappAuth
